import Mathlib

/-!
Verification of the image-captioning pipeline in
`src/build_model/build_model.py` (repository HanCai98/image-captioning).

The Python source is shallowly embedded: strings are `List Char`, dictionaries
are association lists that keep insertion order (Python dicts preserve it),
random draws (`np.random.choice`) are explicit parameters, and the Keras
tokenizer is modelled by its two dictionaries `word_index` / `index_word`
together with the `num_words` cutoff.  Character-level predicates
(`str.lower`, `str.isalpha`, `str.split`) are modelled on the ASCII fragment,
which is the fragment exercised by the pipeline (the corpus is cleaned to
ASCII alphabetic words before any of the claims apply).
-/

namespace ImgCap

/-- Python strings, modelled as lists of characters. -/
abbrev PyStr := List Char

/-- Characters split on by Python `str.split()` with no argument
(ASCII whitespace: space, tab, newline, carriage return, vertical tab,
form feed). -/
def pyIsSpaceChar (c : Char) : Bool :=
  c.toNat = 32 || c.toNat = 9 || c.toNat = 10 || c.toNat = 13 ||
  c.toNat = 11 || c.toNat = 12

/-- ASCII uppercase letters, as recognised by Python `str.lower`. -/
def pyIsUpperChar (c : Char) : Bool :=
  65 ≤ c.toNat && c.toNat ≤ 90

/-- Python `str.lower` on one character (ASCII fragment). -/
def lowerC (c : Char) : Char :=
  if pyIsUpperChar c then Char.ofNat (c.toNat + 32) else c

/-- Python `str.isalpha` on one character (ASCII fragment):
an ASCII letter, upper or lower case. -/
def pyIsAlphaChar (c : Char) : Bool :=
  (65 ≤ c.toNat && c.toNat ≤ 90) || (97 ≤ c.toNat && c.toNat ≤ 122)

/-- The 32 characters of Python `string.punctuation`, used by `cleaning`
through `str.maketrans('', '', string.punctuation)`. -/
def punctChars : List Char :=
  ['!', '\"', '#', '$', '%', '&', '\'', '(', ')', '*', '+', ',', '-', '.',
   '/', ':', ';', '<', '=', '>', '?', '@', '[', '\\', ']', '^', '_',
   '\x60', '\x7b', '|', '\x7d', '~']

/-- Helper for `splitP`: `acc` is the current (reversed) run of
non-separator characters. -/
def splitPAux (p : Char → Bool) : List Char → List Char → List PyStr
  | [], acc => if acc = [] then [] else [acc.reverse]
  | c :: cs, acc =>
    if p c then
      (if acc = [] then splitPAux p cs [] else acc.reverse :: splitPAux p cs [])
    else
      splitPAux p cs (c :: acc)

/-- Split a string at characters satisfying `p`, dropping empty fields:
the common behaviour of Python `str.split()` (with `p` = whitespace) and of
the Keras word splitter after filter characters are replaced by spaces. -/
def splitP (p : Char → Bool) (s : PyStr) : List PyStr :=
  splitPAux p s []

/-- Python `caption.split()` (no argument: split on whitespace runs). -/
def pySplit (s : PyStr) : List PyStr :=
  splitP pyIsSpaceChar s

/-- Python `' '.join(tokens)`. -/
def pyJoin : List PyStr → PyStr
  | [] => []
  | w :: ws =>
    match ws with
    | [] => w
    | _ :: _ => w ++ ' ' :: pyJoin ws

/-- One word of `cleaning`'s per-token pipeline before the filters:
lowercase, then delete punctuation (the `translate` with
`str.maketrans('', '', string.punctuation)`). -/
def cleanWord (w : PyStr) : PyStr :=
  (w.map lowerC).filter (fun c => ¬ punctChars.contains c)

/-- The cleaned token list of one caption, exactly as in `cleaning`
(lines 88–93 of the source): split, lowercase, strip punctuation, keep
tokens longer than one character, keep purely alphabetic tokens. -/
def cleanTokens (s : PyStr) : List PyStr :=
  (((pySplit s).map cleanWord).filter (fun t => 1 < t.length)).filter
    (fun t => t.all pyIsAlphaChar)

/-- The cleaned caption: the cleaned tokens re-joined with single spaces
(line 95 of the source, `caption_list[i] = ' '.join(tmp)`). -/
def cleanCaption (s : PyStr) : PyStr :=
  pyJoin (cleanTokens s)

/-- A caption dictionary: photo identifier to list of captions, as an
association list preserving Python dict insertion order. -/
abbrev CaptionDict := List (String × List PyStr)

/-- The Text Normalizer `cleaning` (source lines 79–97).  The source
mutates each caption list in place and returns `None`; the embedding
returns the updated dictionary. -/
def cleaning (d : CaptionDict) : CaptionDict :=
  d.map (fun p => (p.1, p.2.map cleanCaption))

/-- `list(caption_dict.keys())` (source line 255). -/
def keys (d : CaptionDict) : List String :=
  d.map (·.1)

/-! ### Keras tokenizer (`create_tokenizer`, source lines 122–131)

`tf.keras.preprocessing.text.Tokenizer` is modelled by its observable state:
the `word_index` mapping (word to id, ids starting at 1, id 0 reserved) and
the optional `num_words` cutoff.  `index_word` is the inverse mapping. -/

structure Tokenizer where
  word_index : List (PyStr × Nat)
  num_words : Option Nat

/-- The default Keras filter characters (punctuation plus tab and newline),
replaced by spaces before splitting in `text_to_word_sequence`. -/
def kerasFilters : List Char :=
  ['!', '\"', '#', '$', '%', '&', '(', ')', '*', '+', ',', '-', '.', '/',
   ':', ';', '<', '=', '>', '?', '@', '[', '\\', ']', '^', '_', '\x60',
   '\x7b', '|', '\x7d', '~', '\t', '\n']

/-- Keras `text_to_word_sequence`: lowercase, replace filter characters by
the split character, split on it, dropping empty fields. -/
def textToWordSequence (s : PyStr) : List PyStr :=
  splitP (fun c => c == ' ')
    ((s.map lowerC).map (fun c => if kerasFilters.contains c then ' ' else c))

/-- Lookup in `tokenizer.word_index`. -/
def wordIndexLookup (tok : Tokenizer) (w : PyStr) : Option Nat :=
  (tok.word_index.find? (fun p => p.1 == w)).map (·.2)

/-- Encoding of one word by `texts_to_sequences`: words absent from
`word_index`, or with id at or above `num_words`, are skipped. -/
def encodeWord (tok : Tokenizer) (w : PyStr) : Option Nat :=
  match wordIndexLookup tok w with
  | none => none
  | some i =>
    match tok.num_words with
    | none => some i
    | some nw => if i < nw then some i else none

/-- `tokenizer.texts_to_sequences([caption])[0]` (source lines 272 and 333). -/
def textsToSequences (tok : Tokenizer) (s : PyStr) : List Nat :=
  (textToWordSequence s).filterMap (encodeWord tok)

/-- `tokenizer.index_word[i]` (source line 338): the inverse of
`word_index`; absent ids have no entry (a `KeyError` in Python). -/
def index_word (tok : Tokenizer) (i : Nat) : Option PyStr :=
  (tok.word_index.find? (fun p => p.2 == i)).map (·.1)

/-! ### Vocabulary counting (source lines 193–202) -/

/-- Add one occurrence of `w` to an ordered count list, keeping first-seen
order as Python's `OrderedDict`-backed `tokenizer.word_counts` does. -/
def bumpCount : List (PyStr × Nat) → PyStr → List (PyStr × Nat)
  | [], w => [(w, 1)]
  | (x, n) :: rest, w =>
    if x = w then (x, n + 1) :: rest else (x, n) :: bumpCount rest w

/-- `tokenizer.word_counts` after `fit_on_texts(captions)`: occurrence
counts over all captions, in first-seen order, with the Keras
word-splitting preprocessing applied to each caption. -/
def word_counts (captions : List PyStr) : List (PyStr × Nat) :=
  captions.foldl (fun acc c => (textToWordSequence c).foldl bumpCount acc) []

/-- `caption_to_list` (source lines 114–120): all captions of the
dictionary, in dictionary order. -/
def caption_to_list (d : CaptionDict) : List PyStr :=
  (d.map (·.2)).flatten

/-- The `words` list of the main block (source lines 195–198): words whose
corpus count is at least `min_freq`, in `word_counts` order. -/
def retainedWords (d : CaptionDict) (minFreq : Nat) : List PyStr :=
  ((word_counts (caption_to_list d)).filter (fun p => minFreq ≤ p.2)).map (·.1)

/-- `vocab_size = len(words) + 1` (source line 199): the retained words
plus the reserved index 0. -/
def vocab_size (d : CaptionDict) (minFreq : Nat) : Nat :=
  (retainedWords d minFreq).length + 1

/-! ### Padding and one-hot targets -/

/-- `tf.keras.preprocessing.sequence.pad_sequences([s], maxlen, padding='pre')[0]`
(source lines 275–276 and 334): left-pad with the padding id 0 up to
`maxlen`; longer sequences are truncated from the front (the Keras default
`truncating='pre'`). -/
def pad_sequences (maxlen : Nat) (s : List Nat) : List Nat :=
  if s.length ≤ maxlen then List.replicate (maxlen - s.length) 0 ++ s
  else s.drop (s.length - maxlen)

/-- `tf.keras.utils.to_categorical` on one id (source line 277): the
one-hot row of length `num_classes`. -/
def to_categorical (numClasses : Nat) (i : Nat) : List Nat :=
  (List.range numClasses).map (fun j => if j = i then 1 else 0)

/-! ### Batch Generator (`generate_dataset`, source lines 247–294)

The two `np.random.choice` draws are explicit parameters: `s` is the
epoch's index permutation (drawn without replacement at line 257, fresh at
the start of every epoch) and `choice count` is the caption index drawn
with replacement at line 270 for the `count`-th visited photo. -/

structure TrainingExample (α : Type) where
  xImg : α
  xText : List Nat
  y : List (List Nat)
deriving DecidableEq

/-- `caption_dict[photo_id]` (source line 267). -/
def captionsOf (d : CaptionDict) (pid : String) : List PyStr :=
  ((d.find? (fun p => p.1 == pid)).map (·.2)).getD []

/-- The training example built from one visited photo (source lines
267–281): sample a caption, encode it, split off input (`encoded[:-1]`)
and target (`encoded[1:]`), left-pad both to `max_length`, one-hot expand
the target, and pair with the photo's feature vector. -/
def mkExample {α : Type} (tok : Tokenizer) (max_length vocabSize : Nat)
    (feats : String → α) (d : CaptionDict) (pid : String) (s2 : Nat) :
    TrainingExample α :=
  let caption := (captionsOf d pid).getD s2 []
  let encoded := textsToSequences tok caption
  let tmp_text := encoded.dropLast
  let tmp_Y := encoded.drop 1
  { xImg := feats pid
    xText := pad_sequences max_length tmp_text
    y := (pad_sequences max_length tmp_Y).map (to_categorical vocabSize) }

/-- The photo identifiers visited in one epoch, in visiting order
(`photo_ids[s[count]]`, source lines 265–266). -/
def epochPhotoIds (d : CaptionDict) (s : List Nat) : List String :=
  s.map (fun i => (keys d).getD i "")

/-- All training examples of one epoch, in visiting order. -/
def epochExamples {α : Type} (d : CaptionDict) (feats : String → α)
    (tok : Tokenizer) (max_length vocabSize : Nat) (s : List Nat)
    (choice : Nat → Nat) : List (TrainingExample α) :=
  s.enum.map (fun p =>
    mkExample tok max_length vocabSize feats d ((keys d).getD p.2 "") (choice p.1))

/-- The batching loop of `generate_dataset` (source lines 283–294): after
each appended example `count` is incremented; a full batch is yielded when
`count % num_photos == 0`, and when `count` reaches the photo count the
leftover partial batch is yielded if non-empty and the epoch ends. -/
def genBatchesAux {β : Type} (num_photos : Nat) :
    List β → List β → Nat → List (List β)
  | [], acc, _ => if acc.isEmpty then [] else [acc]
  | e :: rest, acc, count =>
    let acc' := acc ++ [e]
    let count' := count + 1
    if count' % num_photos = 0 then acc' :: genBatchesAux num_photos rest [] count'
    else genBatchesAux num_photos rest acc' count'

/-- The batches of one epoch. -/
def genBatches {β : Type} (num_photos : Nat) (examples : List β) :
    List (List β) :=
  genBatchesAux num_photos examples [] 0

/-- `generate_dataset` as an infinite stream of epochs: epoch `e` uses the
freshly drawn permutation `perms e` and caption choices `choices e`, and
yields the listed batches in order before the next epoch starts. -/
def generate_dataset {α : Type} (d : CaptionDict) (feats : String → α)
    (tok : Tokenizer) (max_length vocabSize num_photos : Nat)
    (perms : Nat → List Nat) (choices : Nat → Nat → Nat) (e : Nat) :
    List (List (TrainingExample α)) :=
  genBatches num_photos
    (epochExamples d feats tok max_length vocabSize (perms e) (choices e))

/-! ### Decoder (`sample_caption`, source lines 324–351) -/

/-- The start sentinel token. -/
def startseqW : PyStr := "startseq".toList

/-- The end sentinel token. -/
def endseqW : PyStr := "endseq".toList

/-- Failure modes of the decoding loop: `keyError` models the Python
`KeyError` raised by `tokenizer.index_word[i]` on an unrecognized id;
`fuelOut` marks exhausted iteration fuel (proved unreachable for
sufficient fuel). -/
inductive DecodeErr where
  | keyError
  | fuelOut
deriving DecidableEq

/-- One-in, all-out greedy decoding loop (source lines 331–345).  The
Sequence Model with the greedy arg-max of its last timestep is the opaque
parameter `predict`: given the feature vector and the padded token ids it
returns the selected token id (`pred_Y.argmax()`).  The loop re-encodes
the running caption, pads it, queries the model, appends the selected
word, and stops when that word is the end sentinel or when the caption's
token count has reached `max_length`. -/
def sampleLoop {α : Type} (predict : α → List Nat → Nat) (tok : Tokenizer)
    (max_length : Nat) (feature : α) : Nat → PyStr → Except DecodeErr PyStr
  | 0, _ => .error .fuelOut
  | fuel + 1, caption =>
    let encoded := textsToSequences tok caption
    let padded := pad_sequences max_length encoded
    let nid := predict feature padded
    match index_word tok nid with
    | none => .error .keyError
    | some next_word =>
      let caption' := caption ++ ' ' :: next_word
      if next_word = endseqW ∨ max_length ≤ (pySplit caption').length
      then .ok caption'
      else sampleLoop predict tok max_length feature fuel caption'

/-- Python `str.replace(pat, '')`, fuelled (each step consumes at least
one character for a non-empty pattern, so `fuel = s.length` is exact):
left-to-right non-overlapping removal of every occurrence of `pat`. -/
def replaceAllF (pat : PyStr) : Nat → PyStr → PyStr
  | 0, s => s
  | _ + 1, [] => []
  | fuel + 1, c :: cs =>
    if pat.isPrefixOf (c :: cs) ∧ pat ≠ []
    then replaceAllF pat fuel ((c :: cs).drop pat.length)
    else c :: replaceAllF pat fuel cs

/-- Python `s.replace(pat, '')`. -/
def pyReplace (s pat : PyStr) : PyStr :=
  replaceAllF pat s.length s

/-- The pattern `'startseq '` of source line 348. -/
def startPat : PyStr := "startseq ".toList

/-- The pattern `' endseq'` of source line 349. -/
def endPat : PyStr := " endseq".toList

/-- The sentinel-stripping of source lines 348–349:
`caption.replace('startseq ', '').replace(' endseq', '')`. -/
def stripWrap (caption : PyStr) : PyStr :=
  pyReplace (pyReplace caption startPat) endPat

/-- `sample_caption` (source lines 324–351): run the greedy loop from the
single start sentinel with iteration fuel `max_length`, then strip the
sentinels from the final string. -/
def sample_caption {α : Type} (predict : α → List Nat → Nat)
    (tok : Tokenizer) (max_length : Nat) (feature : α) :
    Except DecodeErr PyStr :=
  (sampleLoop predict tok max_length feature max_length startseqW).map stripWrap

/-- Number of maximal non-whitespace runs of a string, with a flag telling
whether the scan starts inside a run; `runCount false s` equals
`(pySplit s).length`.  Used to reason about token counts under
`str.replace`. -/
def runCount : Bool → List Char → Nat
  | _, [] => 0
  | b, c :: cs =>
    if pyIsSpaceChar c then runCount false cs
    else (if b then 0 else 1) + runCount true cs

/-! ### Concrete fixtures used by counterexamples and witnesses -/

/-- A minimal tokenizer holding only the two sentinels. -/
def tokSent : Tokenizer :=
  ⟨[(startseqW, 1), (endseqW, 2)], none⟩

/-- A tokenizer with the two sentinels and one ordinary word. -/
def tokDog : Tokenizer :=
  ⟨[(startseqW, 1), (endseqW, 2), ("dog".toList, 3)], none⟩

/-- A tokenizer for the C6 witness. -/
def tokFour : Tokenizer :=
  ⟨[(startseqW, 1), ("a".toList, 2), ("dog".toList, 3), (endseqW, 4)], none⟩

/-- The two-caption corpus of the C10 scenario. -/
def dScenario : CaptionDict :=
  [("photo1", ["a dog runs".toList, "a dog runs fast".toList])]

/-- A two-photo dictionary for the C1 witness. -/
def dTwo : CaptionDict :=
  [("p1", ["startseq a dog endseq".toList]),
   ("p2", ["startseq a cat endseq".toList])]

/-- A five-photo dictionary (one caption each) for the C5 witness. -/
def dFive : CaptionDict :=
  [("p1", ["startseq a endseq".toList]), ("p2", ["startseq b endseq".toList]),
   ("p3", ["startseq c endseq".toList]), ("p4", ["startseq d endseq".toList]),
   ("p5", ["startseq e endseq".toList])]

/-- A dictionary whose first caption cleans to the empty string, for the
C9 witness. -/
def dEmptyish : CaptionDict :=
  [("p1", ["A!".toList, "two good words".toList])]

/-- Well-formedness of a tokenizer's vocabulary, true of every Keras
tokenizer: each word is non-empty and contains no whitespace (Keras words
come from whitespace splitting). -/
def wfTokens (tok : Tokenizer) : Prop :=
  ∀ p ∈ tok.word_index, p.1 ≠ [] ∧ ∀ c ∈ p.1, pyIsSpaceChar c = false

/-! ## Character-level facts -/

theorem toNat_ofNat_valid (n : Nat) (h : n < 55296) :
    (Char.ofNat n).toNat = n := by
  unfold Char.ofNat
  rw [dif_pos (Or.inl h)]
  rfl

theorem lowerC_not_upper (c : Char) : pyIsUpperChar (lowerC c) = false := by
  unfold lowerC
  by_cases h : pyIsUpperChar c = true
  · rw [if_pos h]
    have hc : 65 ≤ c.toNat ∧ c.toNat ≤ 90 := by
      simpa [pyIsUpperChar] using h
    have hv : (Char.ofNat (c.toNat + 32)).toNat = c.toNat + 32 :=
      toNat_ofNat_valid _ (by omega)
    simp [pyIsUpperChar, hv]
    omega
  · rw [if_neg h]
    simpa using h

theorem lowerC_idem (c : Char) : lowerC (lowerC c) = lowerC c := by
  have h : pyIsUpperChar (lowerC c) = false := lowerC_not_upper c
  rw [show lowerC (lowerC c) =
        if pyIsUpperChar (lowerC c) then Char.ofNat ((lowerC c).toNat + 32)
        else lowerC c from rfl, h]
  simp

theorem punct_not_alpha : ∀ c ∈ punctChars, pyIsAlphaChar c = false := by
  decide

theorem alpha_not_space (c : Char) (h : pyIsAlphaChar c = true) :
    pyIsSpaceChar c = false := by
  simp only [pyIsAlphaChar, Bool.or_eq_true, Bool.and_eq_true,
    decide_eq_true_eq] at h
  simp only [pyIsSpaceChar]
  simp only [Bool.or_eq_false_iff, decide_eq_false_iff_not]
  omega

/-! ## Splitting and joining -/

theorem splitPAux_append (p : Char → Bool) (hsep : p ' ' = true) (ys : PyStr)
    (xs : PyStr) (acc : List Char) :
    splitPAux p (xs ++ ' ' :: ys) acc =
      splitPAux p xs acc ++ splitPAux p ys [] := by
  induction xs generalizing acc with
  | nil =>
    by_cases h : acc = [] <;> simp [splitPAux, hsep, h]
  | cons c xs ih =>
    by_cases hc : p c = true
    · by_cases h : acc = [] <;> simp [splitPAux, hc, h, ih]
    · simp [splitPAux, hc, ih]

theorem splitPAux_no_sep (p : Char → Bool) (w : PyStr) :
    ∀ acc : List Char, (∀ c ∈ w, p c = false) → (acc ≠ [] ∨ w ≠ []) →
      splitPAux p w acc = [acc.reverse ++ w] := by
  induction w with
  | nil =>
    intro acc _ h
    have hacc : acc ≠ [] := by
      rcases h with h | h
      · exact h
      · exact absurd rfl h
    simp [splitPAux, hacc]
  | cons c cs ih =>
    intro acc hall _
    have hc : p c = false := hall c (List.mem_cons_self c cs)
    have : splitPAux p (c :: cs) acc = splitPAux p cs (c :: acc) := by
      simp [splitPAux, hc]
    rw [this, ih (c :: acc) (fun x hx => hall x (List.mem_cons_of_mem c hx))
      (Or.inl (by simp))]
    simp

theorem splitP_singleton (p : Char → Bool) (w : PyStr) (hw : w ≠ [])
    (hall : ∀ c ∈ w, p c = false) : splitP p w = [w] := by
  simpa [splitP] using splitPAux_no_sep p w [] hall (Or.inr hw)

theorem splitP_join (p : Char → Bool) (hsep : p ' ' = true) (ws : List PyStr)
    (hws : ∀ w ∈ ws, w ≠ [] ∧ ∀ c ∈ w, p c = false) :
    splitP p (pyJoin ws) = ws := by
  induction ws with
  | nil => simp [splitP, splitPAux, pyJoin]
  | cons w ws ih =>
    cases ws with
    | nil =>
      have h := hws w (List.mem_cons_self w _)
      simpa [pyJoin] using splitP_singleton p w h.1 h.2
    | cons x ys =>
      have h := hws w (List.mem_cons_self w _)
      have htail : ∀ u ∈ x :: ys, u ≠ [] ∧ ∀ c ∈ u, p c = false :=
        fun u hu => hws u (List.mem_cons_of_mem _ hu)
      have hw1 : splitPAux p w [] = [w] := splitP_singleton p w h.1 h.2
      calc splitP p (pyJoin (w :: x :: ys))
          = splitPAux p (w ++ ' ' :: pyJoin (x :: ys)) [] := rfl
        _ = splitPAux p w [] ++ splitPAux p (pyJoin (x :: ys)) [] :=
            splitPAux_append p hsep _ w []
        _ = [w] ++ (x :: ys) := by
            rw [hw1]
            rw [show splitPAux p (pyJoin (x :: ys)) [] =
                  splitP p (pyJoin (x :: ys)) from rfl, ih htail]
        _ = w :: x :: ys := rfl

/-! ## Idempotence of cleaning (C8) and its frame (C9) -/

theorem lowerC_image_fix {l : List Char} (hc : ∀ a ∈ l, ∃ c, a = lowerC c) :
    l.map lowerC = l := by
  have h : ∀ a ∈ l, lowerC a = id a := by
    intro a ha
    obtain ⟨c, rfl⟩ := hc a ha
    exact lowerC_idem c
  rw [List.map_congr_left h, List.map_id]

theorem cleanWord_idem (u : PyStr) : cleanWord (cleanWord u) = cleanWord u := by
  unfold cleanWord
  have h1 : (((u.map lowerC).filter
        (fun c => ¬ punctChars.contains c)).map lowerC) =
      ((u.map lowerC).filter (fun c => ¬ punctChars.contains c)) := by
    apply lowerC_image_fix
    intro a ha
    obtain ⟨c, _, rfl⟩ := List.mem_map.mp (List.mem_of_mem_filter ha)
    exact ⟨c, rfl⟩
  rw [h1]
  apply List.filter_eq_self.mpr
  intro a ha
  exact (List.mem_filter.mp ha).2

theorem mem_cleanTokens {s t : PyStr} (ht : t ∈ cleanTokens s) :
    (∃ u, t = cleanWord u) ∧ 1 < t.length ∧ t.all pyIsAlphaChar = true := by
  unfold cleanTokens at ht
  have h2 := List.of_mem_filter ht
  have ht1 := List.mem_of_mem_filter ht
  have hlen := List.of_mem_filter ht1
  have ht2 := List.mem_of_mem_filter ht1
  obtain ⟨u, _, rfl⟩ := List.mem_map.mp ht2
  exact ⟨⟨u, rfl⟩, by simpa using hlen, by simpa using h2⟩

theorem cleanWord_fix_of_mem {s t : PyStr} (ht : t ∈ cleanTokens s) :
    cleanWord t = t := by
  obtain ⟨⟨u, rfl⟩, -, -⟩ := mem_cleanTokens ht
  exact cleanWord_idem u

theorem cleanTokens_cleanCaption (s : PyStr) :
    cleanTokens (cleanCaption s) = cleanTokens s := by
  have hsplit : pySplit (cleanCaption s) = cleanTokens s := by
    unfold cleanCaption pySplit
    apply splitP_join pyIsSpaceChar (by decide)
    intro w hw
    obtain ⟨-, hlen, hall⟩ := mem_cleanTokens hw
    refine ⟨?_, ?_⟩
    · intro he
      subst he
      simp at hlen
    · intro c hc
      exact alpha_not_space c (List.all_eq_true.mp hall c hc)
  have hmap : (cleanTokens s).map cleanWord = cleanTokens s := by
    have h : ∀ t ∈ cleanTokens s, cleanWord t = id t :=
      fun t ht => cleanWord_fix_of_mem ht
    rw [List.map_congr_left h, List.map_id]
  have h2 : ((cleanTokens s).filter (fun t => 1 < t.length)).filter
        (fun t => t.all pyIsAlphaChar)
      = (cleanTokens s).filter (fun t => 1 < t.length) := by
    apply List.filter_eq_self.mpr
    intro t ht
    exact (mem_cleanTokens (List.mem_of_mem_filter ht)).2.2
  have h3 : (cleanTokens s).filter (fun t => 1 < t.length) = cleanTokens s := by
    apply List.filter_eq_self.mpr
    intro t ht
    exact decide_eq_true (mem_cleanTokens ht).2.1
  show (((pySplit (cleanCaption s)).map cleanWord).filter
      (fun t => 1 < t.length)).filter (fun t => t.all pyIsAlphaChar)
    = cleanTokens s
  rw [hsplit, hmap, h2, h3]

theorem cleanCaption_idem (s : PyStr) :
    cleanCaption (cleanCaption s) = cleanCaption s := by
  show pyJoin (cleanTokens (cleanCaption s)) = pyJoin (cleanTokens s)
  rw [cleanTokens_cleanCaption s]

/-- C8: the Text Normalizer `cleaning` is idempotent: applying it twice
gives the same dictionary as applying it once, because every token of an
already-cleaned caption is longer than one character, purely alphabetic,
lowercase, and free of punctuation, so a second pass changes nothing. -/
theorem cleaning_idempotent (d : CaptionDict) :
    cleaning (cleaning d) = cleaning d ∧
    ∀ s t, t ∈ cleanTokens s →
      1 < t.length ∧ t.all pyIsAlphaChar = true ∧
      ∀ c ∈ t, pyIsUpperChar c = false ∧ c ∉ punctChars := by
  constructor
  · unfold cleaning
    rw [List.map_map]
    apply List.map_congr_left
    intro p _
    show (p.1, (p.2.map cleanCaption).map cleanCaption) = (p.1, p.2.map cleanCaption)
    rw [List.map_map]
    have h : ∀ c ∈ p.2, (cleanCaption ∘ cleanCaption) c = cleanCaption c :=
      fun c _ => cleanCaption_idem c
    rw [List.map_congr_left h]
  · intro s t ht
    obtain ⟨⟨u, hu⟩, hlen, hall⟩ := mem_cleanTokens ht
    refine ⟨hlen, hall, ?_⟩
    intro c hc
    constructor
    · subst hu
      obtain ⟨c', _, rfl⟩ := List.mem_map.mp (List.mem_of_mem_filter hc)
      exact lowerC_not_upper c'
    · intro hp
      have halpha : pyIsAlphaChar c = true := List.all_eq_true.mp hall c hc
      have := punct_not_alpha c hp
      rw [this] at halpha
      exact Bool.false_ne_true halpha

/-- Witness for C8 at a concrete dictionary and a concrete cleaned token. -/
theorem cleaning_idempotent_witness :
    cleaning (cleaning dEmptyish) = cleaning dEmptyish ∧
    (1 < ("two".toList : PyStr).length ∧
      ("two".toList : PyStr).all pyIsAlphaChar = true ∧
      ∀ c ∈ ("two".toList : PyStr), pyIsUpperChar c = false ∧ c ∉ punctChars) :=
  ⟨(cleaning_idempotent dEmptyish).1,
   (cleaning_idempotent dEmptyish).2 ("two good words".toList) ("two".toList)
     (by decide)⟩

/-- C9: `cleaning` preserves the dictionary frame: the key list is
unchanged, each photo's caption list keeps its length, every caption is
replaced in place by its cleaned form, and a caption all of whose tokens
are filtered out stays in its list as the empty string. -/
theorem cleaning_preserves_frame (d : CaptionDict) :
    keys (cleaning d) = keys d ∧
    (cleaning d).map (fun p => p.2.length) = d.map (fun p => p.2.length) ∧
    (cleaning d).map (·.2) = d.map (fun p => p.2.map cleanCaption) ∧
    ∀ s, cleanTokens s = [] → cleanCaption s = [] := by
  refine ⟨?_, ?_, ?_, ?_⟩
  · unfold keys cleaning
    rw [List.map_map]
    rfl
  · unfold cleaning
    rw [List.map_map]
    apply List.map_congr_left
    intro p _
    show (p.2.map cleanCaption).length = p.2.length
    rw [List.length_map]
  · unfold cleaning
    rw [List.map_map]
    rfl
  · intro s h
    show pyJoin (cleanTokens s) = []
    rw [h]
    rfl

/-- Witness for C9 at a concrete dictionary whose first caption cleans to
the empty string. -/
theorem cleaning_preserves_frame_witness :
    keys (cleaning dEmptyish) = keys dEmptyish ∧
    cleanCaption ("A!".toList) = [] :=
  ⟨(cleaning_preserves_frame dEmptyish).1,
   (cleaning_preserves_frame dEmptyish).2.2.2 ("A!".toList) (by decide)⟩

/-! ## Vocabulary building (C10) -/

/-- C10: building the vocabulary from the captions `"a dog runs"` and
`"a dog runs fast"` with minimum frequency 2 counts a, dog and runs twice
and fast once, retains exactly a, dog and runs, and yields
`vocab_size = 4`, the number of retained tokens plus one for the reserved
id 0. -/
theorem vocabulary_scenario_min_freq :
    word_counts (caption_to_list dScenario) =
      [("a".toList, 2), ("dog".toList, 2), ("runs".toList, 2),
       ("fast".toList, 1)] ∧
    retainedWords dScenario 2 = ["a".toList, "dog".toList, "runs".toList] ∧
    vocab_size dScenario 2 = 4 ∧
    vocab_size dScenario 2 = (retainedWords dScenario 2).length + 1 := by
  refine ⟨by decide, by decide, by decide, rfl⟩

/-! ## Encoding drops out-of-vocabulary tokens (C7) -/

theorem filterMap_encode (tok : Tokenizer) (ws : List PyStr) :
    ws.filterMap (encodeWord tok) =
      (ws.filter (fun w => (encodeWord tok w).isSome)).map
        (fun w => (encodeWord tok w).getD 0) := by
  induction ws with
  | nil => rfl
  | cons w ws ih =>
    cases h : encodeWord tok w with
    | none => simp [List.filterMap_cons, h, ih]
    | some i => simp [List.filterMap_cons, h, ih]

/-- C7: encoding a caption during batch construction is a total function
that silently drops the out-of-vocabulary tokens: the result is exactly
the id sequence of the in-vocabulary tokens in order (so it never raises),
and it is never longer than the caption's token sequence. -/
theorem texts_to_sequences_drops_oov (tok : Tokenizer) (caption : PyStr) :
    textsToSequences tok caption =
      ((textToWordSequence caption).filter
        (fun w => (encodeWord tok w).isSome)).map
        (fun w => (encodeWord tok w).getD 0) ∧
    (textsToSequences tok caption).length ≤
      (textToWordSequence caption).length := by
  constructor
  · exact filterMap_encode tok (textToWordSequence caption)
  · exact List.length_filterMap_le _ _

/-! ## Training example shapes (C6) -/

theorem pad_sequences_length (maxlen : Nat) (s : List Nat) :
    (pad_sequences maxlen s).length = maxlen := by
  unfold pad_sequences
  split
  · simp
    omega
  · simp
    omega

theorem pad_sequences_eq_of_le (maxlen : Nat) (s : List Nat)
    (h : s.length ≤ maxlen) :
    pad_sequences maxlen s = List.replicate (maxlen - s.length) 0 ++ s := by
  unfold pad_sequences
  rw [if_pos h]

/-- C6: each training example built by `generate_dataset` has padded input
and padded target (before one-hot expansion) of length exactly
`max_length`; the input is the encoded caption without its last id and the
target the encoded caption without its first id — a next-token shift —
both left-padded with the padding id 0, and the target is then one-hot
expanded.  The fit hypothesis `e.length ≤ max_length + 1` is what the
pipeline guarantees, since `max_length` is the maximum caption token count
minus one (source line 209). -/
theorem generate_dataset_example_shapes {α : Type} (tok : Tokenizer)
    (max_length vocabSize : Nat) (feats : String → α) (d : CaptionDict)
    (pid : String) (s2 : Nat) (e : List Nat)
    (he : e = textsToSequences tok ((captionsOf d pid).getD s2 []))
    (hfit : e.length ≤ max_length + 1) :
    (mkExample tok max_length vocabSize feats d pid s2).xText
        = List.replicate (max_length - e.dropLast.length) 0 ++ e.dropLast ∧
    (mkExample tok max_length vocabSize feats d pid s2).xText.length
        = max_length ∧
    pad_sequences max_length (e.drop 1)
        = List.replicate (max_length - (e.drop 1).length) 0 ++ e.drop 1 ∧
    (pad_sequences max_length (e.drop 1)).length = max_length ∧
    (mkExample tok max_length vocabSize feats d pid s2).y
        = (pad_sequences max_length (e.drop 1)).map (to_categorical vocabSize) ∧
    e.dropLast.drop 1 = (e.drop 1).dropLast := by
  have hx : (mkExample tok max_length vocabSize feats d pid s2).xText
      = pad_sequences max_length e.dropLast := by
    rw [he]; rfl
  have hy : (mkExample tok max_length vocabSize feats d pid s2).y
      = (pad_sequences max_length (e.drop 1)).map (to_categorical vocabSize) := by
    rw [he]; rfl
  have hl1 : e.dropLast.length ≤ max_length := by
    rw [List.length_dropLast]; omega
  have hl2 : (e.drop 1).length ≤ max_length := by
    rw [List.length_drop]; omega
  refine ⟨?_, ?_, ?_, ?_, hy, ?_⟩
  · rw [hx]; exact pad_sequences_eq_of_le _ _ hl1
  · rw [hx]; exact pad_sequences_length _ _
  · exact pad_sequences_eq_of_le _ _ hl2
  · exact pad_sequences_length _ _
  · rw [List.dropLast_eq_take, List.dropLast_eq_take, List.drop_take,
      List.length_drop]

/-- Witness for C6 at a concrete tokenizer, caption and `max_length`. -/
theorem generate_dataset_example_shapes_witness :
    (mkExample tokFour 5 5 (fun _ => (0 : Nat)) dTwo "p1" 0).xText
        = List.replicate (5 - ([1, 2, 3, 4] : List Nat).dropLast.length) 0
            ++ ([1, 2, 3, 4] : List Nat).dropLast ∧
    (mkExample tokFour 5 5 (fun _ => (0 : Nat)) dTwo "p1" 0).xText.length
        = 5 ∧
    pad_sequences 5 (([1, 2, 3, 4] : List Nat).drop 1)
        = List.replicate (5 - (([1, 2, 3, 4] : List Nat).drop 1).length) 0
            ++ ([1, 2, 3, 4] : List Nat).drop 1 ∧
    (pad_sequences 5 (([1, 2, 3, 4] : List Nat).drop 1)).length = 5 ∧
    (mkExample tokFour 5 5 (fun _ => (0 : Nat)) dTwo "p1" 0).y
        = (pad_sequences 5 (([1, 2, 3, 4] : List Nat).drop 1)).map
            (to_categorical 5) ∧
    ([1, 2, 3, 4] : List Nat).dropLast.drop 1
        = (([1, 2, 3, 4] : List Nat).drop 1).dropLast :=
  generate_dataset_example_shapes tokFour 5 5 (fun _ => (0 : Nat)) dTwo
    "p1" 0 [1, 2, 3, 4] (by decide) (by decide)

/-! ## Batch generator (C1, C5) -/

theorem genBatchesAux_nil {β : Type} (np : Nat) (acc : List β) (count : Nat) :
    genBatchesAux np [] acc count = if acc.isEmpty then [] else [acc] := rfl

theorem genBatchesAux_cons {β : Type} (np : Nat) (e : β) (rest acc : List β)
    (count : Nat) :
    genBatchesAux np (e :: rest) acc count =
      if (count + 1) % np = 0 then
        (acc ++ [e]) :: genBatchesAux np rest [] (count + 1)
      else genBatchesAux np rest (acc ++ [e]) (count + 1) := rfl

theorem genBatchesAux_flatten {β : Type} (np : Nat) (l : List β) :
    ∀ (acc : List β) (count : Nat),
      (genBatchesAux np l acc count).flatten = acc ++ l := by
  induction l with
  | nil =>
    intro acc count
    rw [genBatchesAux_nil]
    by_cases h : acc = []
    · subst h; simp
    · rw [if_neg (by simpa using h)]
      simp
  | cons e rest ih =>
    intro acc count
    rw [genBatchesAux_cons]
    by_cases h : (count + 1) % np = 0
    · rw [if_pos h]
      simp [ih]
    · rw [if_neg h, ih]
      simp

theorem genBatchesAux_sizes {β : Type} (np : Nat) (hnp : 0 < np)
    (l : List β) :
    ∀ (acc : List β) (count : Nat), count % np = acc.length →
      acc.length < np →
      (genBatchesAux np l acc count).map List.length =
        List.replicate ((acc.length + l.length) / np) np ++
          (if (acc.length + l.length) % np = 0 then []
           else [(acc.length + l.length) % np]) := by
  induction l with
  | nil =>
    intro acc count hmod hlt
    rw [genBatchesAux_nil]
    by_cases h : acc = []
    · subst h; simp
    · have h0 : 0 < acc.length := List.length_pos.mpr h
      rw [if_neg (by simpa using h)]
      simp only [List.length_nil]
      have h1 : (acc.length + 0) / np = 0 := Nat.div_eq_of_lt (by omega)
      have h2 : (acc.length + 0) % np = acc.length := by
        rw [Nat.add_zero]
        exact Nat.mod_eq_of_lt hlt
      rw [h1, h2, if_neg (by omega)]
      simp
  | cons e rest ih =>
    intro acc count hmod hlt
    rw [genBatchesAux_cons]
    have hcongr : (count + 1) % np = (acc.length + 1) % np := by
      have h1 : count % np = acc.length % np := by
        rw [hmod, Nat.mod_eq_of_lt hlt]
      exact Nat.ModEq.add_right 1 h1
    by_cases h : (count + 1) % np = 0
    · rw [if_pos h]
      have hmod0 : (acc.length + 1) % np = 0 := by rw [← hcongr]; exact h
      have hlen : acc.length + 1 = np := by
        by_cases hl : acc.length + 1 < np
        · rw [Nat.mod_eq_of_lt hl] at hmod0; omega
        · omega
      have hIH := ih [] (count + 1) (by simpa using h) (by simpa using hnp)
      rw [List.map_cons, hIH]
      have e1 : acc.length + (e :: rest).length = rest.length + np := by
        simp; omega
      have e2 : (acc ++ [e]).length = np := by
        simp; omega
      rw [e1, e2, Nat.add_div_right _ hnp, Nat.add_mod_right,
        List.replicate_succ]
      simp
    · rw [if_neg h]
      have hne : acc.length + 1 ≠ np := by
        intro hcontra
        rw [hcongr, hcontra, Nat.mod_self] at h
        exact h rfl
      have hlt' : acc.length + 1 < np := by omega
      have hmod' : (count + 1) % np = (acc ++ [e]).length := by
        rw [hcongr, Nat.mod_eq_of_lt hlt']
        simp
      have hIH := ih (acc ++ [e]) (count + 1) hmod' (by simpa using hlt')
      rw [hIH]
      have e2 : (acc ++ [e]).length + rest.length =
          acc.length + (e :: rest).length := by
        simp
        omega
      rw [e2]

/-- C5: within one epoch over `n` photos with batch size `num_photos`,
`generate_dataset` yields `n / num_photos` batches of exactly `num_photos`
examples, followed by one final batch of `n % num_photos` examples when
`num_photos` does not divide `n` (and by no extra batch when it does);
the next epoch then starts afresh.  With 5 photos and `num_photos = 2`
this gives batch sizes `[2, 2, 1]` (see the witness). -/
theorem generate_dataset_batch_sizes {α : Type} (d : CaptionDict)
    (feats : String → α) (tok : Tokenizer)
    (max_length vocabSize num_photos : Nat) (perms : Nat → List Nat)
    (choices : Nat → Nat → Nat) (e : Nat) (hnp : 0 < num_photos)
    (hlen : (perms e).length = (keys d).length) :
    (generate_dataset d feats tok max_length vocabSize num_photos perms
        choices e).map List.length =
      List.replicate ((keys d).length / num_photos) num_photos ++
        (if (keys d).length % num_photos = 0 then []
         else [(keys d).length % num_photos]) := by
  have hexlen : (epochExamples d feats tok max_length vocabSize (perms e)
      (choices e)).length = (keys d).length := by
    unfold epochExamples
    rw [List.length_map, List.enum_length, hlen]
  have h := genBatchesAux_sizes num_photos hnp
    (epochExamples d feats tok max_length vocabSize (perms e) (choices e))
    [] 0 (by simp) (by simpa using hnp)
  unfold generate_dataset genBatches
  rw [h, hexlen]
  simp

/-- Witness for C5: five photos, `num_photos = 2`, batch sizes `[2, 2, 1]`. -/
theorem generate_dataset_batch_sizes_witness :
    (generate_dataset dFive (fun _ => (0 : Nat)) tokFour 5 5 2
        (fun _ => [0, 1, 2, 3, 4]) (fun _ _ => 0) 0).map List.length
      = [2, 2, 1] := by
  rw [generate_dataset_batch_sizes dFive (fun _ => (0 : Nat)) tokFour 5 5 2
    (fun _ => [0, 1, 2, 3, 4]) (fun _ _ => 0) 0 (by decide) (by decide)]
  decide

theorem getD_range_map {γ : Type} (l : List γ) (x : γ) :
    (List.range l.length).map (fun i => l.getD i x) = l := by
  refine List.ext_getElem (by simp) ?_
  intro i h1 h2
  rw [List.getElem_map, List.getElem_range, List.getD_eq_getElem?_getD,
    List.getElem?_eq_getElem h2]
  rfl

/-- C1: in every epoch `e` of the Batch Generator, given that epoch's
freshly drawn permutation `perms e` of the photo indices, the multiset of
photo identifiers contributing examples equals the key list of the caption
dictionary, each key exactly once; all the epoch's batches together carry
exactly the epoch's examples (one per visited photo), and their number is
the number of keys.  Redrawing per epoch is modelled by each epoch `e`
consuming its own draw `perms e`. -/
theorem generate_dataset_epoch_partition {α : Type} (d : CaptionDict)
    (feats : String → α) (tok : Tokenizer)
    (max_length vocabSize num_photos : Nat) (perms : Nat → List Nat)
    (choices : Nat → Nat → Nat) (e : Nat)
    (hperm : (perms e).Perm (List.range (keys d).length)) :
    (↑(epochPhotoIds d (perms e)) : Multiset String) = ↑(keys d) ∧
    (generate_dataset d feats tok max_length vocabSize num_photos perms
        choices e).flatten
      = epochExamples d feats tok max_length vocabSize (perms e) (choices e) ∧
    (epochExamples d feats tok max_length vocabSize (perms e)
        (choices e)).length = (keys d).length := by
  refine ⟨?_, ?_, ?_⟩
  · rw [Multiset.coe_eq_coe]
    have h := hperm.map (fun i => (keys d).getD i "")
    rw [getD_range_map] at h
    exact h
  · unfold generate_dataset genBatches
    simpa using genBatchesAux_flatten num_photos _ [] 0
  · unfold epochExamples
    rw [List.length_map, List.enum_length, hperm.length_eq,
      List.length_range]

/-- Witness for C1 at a two-photo dictionary with the non-identity
permutation. -/
theorem generate_dataset_epoch_partition_witness :
    (↑(epochPhotoIds dTwo [1, 0]) : Multiset String) = ↑(keys dTwo) ∧
    (generate_dataset dTwo (fun _ => (0 : Nat)) tokFour 5 5 1
        (fun _ => [1, 0]) (fun _ => fun _ => 0) 0).flatten
      = epochExamples dTwo (fun _ => (0 : Nat)) tokFour 5 5 [1, 0]
          (fun _ => 0) ∧
    (epochExamples dTwo (fun _ => (0 : Nat)) tokFour 5 5 [1, 0]
        (fun _ => 0)).length = (keys dTwo).length :=
  generate_dataset_epoch_partition dTwo (fun _ => (0 : Nat)) tokFour 5 5 1
    (fun _ => [1, 0]) (fun _ => fun _ => 0) 0 (by decide)

/-! ## Decoder (C2, C3, C4) -/

theorem sampleLoop_zero {α : Type} (predict : α → List Nat → Nat)
    (tok : Tokenizer) (max_length : Nat) (feature : α) (caption : PyStr) :
    sampleLoop predict tok max_length feature 0 caption
      = .error .fuelOut := rfl

theorem sampleLoop_succ {α : Type} (predict : α → List Nat → Nat)
    (tok : Tokenizer) (max_length : Nat) (feature : α) (fuel : Nat)
    (caption : PyStr) :
    sampleLoop predict tok max_length feature (fuel + 1) caption =
      match index_word tok (predict feature
          (pad_sequences max_length (textsToSequences tok caption))) with
      | none => .error .keyError
      | some next_word =>
        if next_word = endseqW ∨
            max_length ≤ (pySplit (caption ++ ' ' :: next_word)).length
        then .ok (caption ++ ' ' :: next_word)
        else sampleLoop predict tok max_length feature fuel
          (caption ++ ' ' :: next_word) := rfl

theorem sampleLoop_succ_none {α : Type} (predict : α → List Nat → Nat)
    (tok : Tokenizer) (max_length : Nat) (feature : α) (fuel : Nat)
    (caption : PyStr)
    (h : index_word tok (predict feature
        (pad_sequences max_length (textsToSequences tok caption))) = none) :
    sampleLoop predict tok max_length feature (fuel + 1) caption
      = .error .keyError := by
  rw [sampleLoop_succ, h]

theorem sampleLoop_succ_some {α : Type} (predict : α → List Nat → Nat)
    (tok : Tokenizer) (max_length : Nat) (feature : α) (fuel : Nat)
    (caption w : PyStr)
    (h : index_word tok (predict feature
        (pad_sequences max_length (textsToSequences tok caption)))
      = some w) :
    sampleLoop predict tok max_length feature (fuel + 1) caption =
      if w = endseqW ∨ max_length ≤ (pySplit (caption ++ ' ' :: w)).length
      then .ok (caption ++ ' ' :: w)
      else sampleLoop predict tok max_length feature fuel
        (caption ++ ' ' :: w) := by
  rw [sampleLoop_succ, h]

theorem replaceAllF_zero (pat s : PyStr) : replaceAllF pat 0 s = s := rfl

theorem replaceAllF_nil (pat : PyStr) (f : Nat) :
    replaceAllF pat (f + 1) [] = [] := rfl

theorem replaceAllF_cons (pat : PyStr) (f : Nat) (c : Char) (cs : PyStr) :
    replaceAllF pat (f + 1) (c :: cs) =
      if pat.isPrefixOf (c :: cs) ∧ pat ≠ []
      then replaceAllF pat f ((c :: cs).drop pat.length)
      else c :: replaceAllF pat f cs := rfl

theorem splitP_append_word (p : Char → Bool) (hsep : p ' ' = true)
    (s w : PyStr) (hw : w ≠ []) (hall : ∀ c ∈ w, p c = false) :
    splitP p (s ++ ' ' :: w) = splitP p s ++ [w] := by
  unfold splitP
  rw [splitPAux_append p hsep w s []]
  rw [show splitPAux p w [] = [w] from splitP_singleton p w hw hall]

theorem pySplit_snoc_word (s w : PyStr) (hw : w ≠ [])
    (hall : ∀ c ∈ w, pyIsSpaceChar c = false) :
    pySplit (s ++ ' ' :: w) = pySplit s ++ [w] :=
  splitP_append_word pyIsSpaceChar (by decide) s w hw hall

theorem index_word_mem {tok : Tokenizer} {i : Nat} {w : PyStr}
    (h : index_word tok i = some w) : ∃ n, (w, n) ∈ tok.word_index := by
  unfold index_word at h
  cases hf : tok.word_index.find? (fun p => p.2 == i) with
  | none => rw [hf] at h; simp at h
  | some q =>
    rw [hf] at h
    simp at h
    refine ⟨q.2, ?_⟩
    rw [← h]
    exact List.mem_of_find?_eq_some hf

theorem index_word_wf {tok : Tokenizer} (hwf : wfTokens tok) {i : Nat}
    {w : PyStr} (h : index_word tok i = some w) :
    w ≠ [] ∧ ∀ c ∈ w, pyIsSpaceChar c = false := by
  obtain ⟨n, hn⟩ := index_word_mem h
  exact hwf (w, n) hn

theorem sampleLoop_ok_of_recognized {α : Type} (predict : α → List Nat → Nat)
    (tok : Tokenizer) (max_length : Nat) (feature : α) (hwf : wfTokens tok)
    (hrec : ∀ padded : List Nat,
      index_word tok (predict feature padded) ≠ none) :
    ∀ (fuel : Nat) (caption : PyStr), 1 ≤ fuel →
      max_length ≤ fuel + (pySplit caption).length →
      ∃ c, sampleLoop predict tok max_length feature fuel caption = .ok c ∧
        ((∃ pre, c = pre ++ ' ' :: endseqW) ∨
          max_length ≤ (pySplit c).length) := by
  intro fuel
  induction fuel with
  | zero => intro caption h1 _; omega
  | succ f ih =>
    intro caption _ hbound
    cases hiw : index_word tok (predict feature
        (pad_sequences max_length (textsToSequences tok caption))) with
    | none => exact absurd hiw (hrec _)
    | some w =>
      rw [sampleLoop_succ_some predict tok max_length feature f caption w hiw]
      obtain ⟨hwne, hwsp⟩ := index_word_wf hwf hiw
      have hcount : (pySplit (caption ++ ' ' :: w)).length
          = (pySplit caption).length + 1 := by
        rw [pySplit_snoc_word caption w hwne hwsp]
        simp
      by_cases hstop : w = endseqW ∨
          max_length ≤ (pySplit (caption ++ ' ' :: w)).length
      · rw [if_pos hstop]
        refine ⟨caption ++ ' ' :: w, rfl, ?_⟩
        rcases hstop with hend | hlen
        · exact Or.inl ⟨caption, by rw [hend]⟩
        · exact Or.inr hlen
      · rw [if_neg hstop]
        push_neg at hstop
        obtain ⟨-, hlen⟩ := hstop
        rw [hcount] at hlen
        exact ih (caption ++ ' ' :: w) (by omega) (by rw [hcount]; omega)

/-- C2 (amended): for every Sequence Model whose greedy arg-max always
selects an id recognized by the vocabulary, the decoding loop of
`sample_caption` terminates within `max_length` iterations (the fuel of
the embedding), stopping at the first iteration whose selected token is
the end sentinel or as soon as the caption's token count reaches
`max_length`; an unrecognized id (such as 0) does not fall under the
length bound: it aborts the loop with a key lookup failure (see the
counterexample). -/
theorem sample_caption_terminates {α : Type} (predict : α → List Nat → Nat)
    (tok : Tokenizer) (max_length : Nat) (feature : α) (hwf : wfTokens tok)
    (hrec : ∀ padded : List Nat,
      index_word tok (predict feature padded) ≠ none)
    (hml : 1 ≤ max_length) :
    ∃ c, sampleLoop predict tok max_length feature max_length startseqW
        = .ok c ∧
      sample_caption predict tok max_length feature = .ok (stripWrap c) ∧
      ((∃ pre, c = pre ++ ' ' :: endseqW) ∨
        max_length ≤ (pySplit c).length) := by
  obtain ⟨c, hc, hpost⟩ := sampleLoop_ok_of_recognized predict tok max_length
    feature hwf hrec max_length startseqW hml (Nat.le_add_right _ _)
  refine ⟨c, hc, ?_, hpost⟩
  unfold sample_caption
  rw [hc]
  rfl

/-- Witness for the amended C2: the always-`endseq` model over the
sentinel-only tokenizer terminates with an `ok` result. -/
theorem sample_caption_terminates_witness :
    ∃ c, sampleLoop (fun (_ : Nat) _ => 2) tokSent 5 0 5 startseqW
        = .ok c ∧
      sample_caption (fun (_ : Nat) _ => 2) tokSent 5 0
        = .ok (stripWrap c) ∧
      ((∃ pre, c = pre ++ ' ' :: endseqW) ∨ 5 ≤ (pySplit c).length) :=
  sample_caption_terminates (fun (_ : Nat) _ => 2) tokSent 5 0
    (by unfold wfTokens; decide)
    (by
      intro padded
      show index_word tokSent 2 ≠ none
      decide)
    (by decide)

/-- C2 is false as stated: with a model whose arg-max is the id 0,
unrecognized by the vocabulary, the decoding loop does not stop via the
end sentinel or the length bound — it aborts on the first iteration with
the `KeyError` of `tokenizer.index_word[0]` (source line 338), so no
caption is produced. -/
theorem sample_caption_unrecognized_id_key_error :
    sample_caption (fun (_ : Nat) _ => 0) tokSent 5 0
      = Except.error DecodeErr.keyError := rfl

theorem sampleLoop_count_le {α : Type} (predict : α → List Nat → Nat)
    (tok : Tokenizer) (max_length : Nat) (feature : α)
    (hwf : wfTokens tok) :
    ∀ (fuel : Nat) (caption c : PyStr),
      sampleLoop predict tok max_length feature fuel caption = .ok c →
      (pySplit caption).length < max_length →
      (pySplit c).length ≤ max_length := by
  intro fuel
  induction fuel with
  | zero =>
    intro caption c hc _
    rw [sampleLoop_zero] at hc
    exact absurd hc (by simp)
  | succ f ih =>
    intro caption c hc hlt
    cases hiw : index_word tok (predict feature
        (pad_sequences max_length (textsToSequences tok caption))) with
    | none =>
      rw [sampleLoop_succ_none predict tok max_length feature f caption hiw]
        at hc
      exact absurd hc (by simp)
    | some w =>
      rw [sampleLoop_succ_some predict tok max_length feature f caption w hiw]
        at hc
      obtain ⟨hwne, hwsp⟩ := index_word_wf hwf hiw
      have hcount : (pySplit (caption ++ ' ' :: w)).length
          = (pySplit caption).length + 1 := by
        rw [pySplit_snoc_word caption w hwne hwsp]
        simp
      by_cases hstop : w = endseqW ∨
          max_length ≤ (pySplit (caption ++ ' ' :: w)).length
      · rw [if_pos hstop] at hc
        have heq : caption ++ ' ' :: w = c := by simpa using hc
        rw [← heq, hcount]
        omega
      · rw [if_neg hstop] at hc
        push_neg at hstop
        exact ih _ c hc hstop.2

theorem sampleLoop_extends {α : Type} (predict : α → List Nat → Nat)
    (tok : Tokenizer) (max_length : Nat) (feature : α) :
    ∀ (fuel : Nat) (caption c : PyStr),
      sampleLoop predict tok max_length feature fuel caption = .ok c →
      ∃ t, c = caption ++ ' ' :: t := by
  intro fuel
  induction fuel with
  | zero =>
    intro caption c hc
    rw [sampleLoop_zero] at hc
    exact absurd hc (by simp)
  | succ f ih =>
    intro caption c hc
    cases hiw : index_word tok (predict feature
        (pad_sequences max_length (textsToSequences tok caption))) with
    | none =>
      rw [sampleLoop_succ_none predict tok max_length feature f caption hiw]
        at hc
      exact absurd hc (by simp)
    | some w =>
      rw [sampleLoop_succ_some predict tok max_length feature f caption w hiw]
        at hc
      by_cases hstop : w = endseqW ∨
          max_length ≤ (pySplit (caption ++ ' ' :: w)).length
      · rw [if_pos hstop] at hc
        have heq : caption ++ ' ' :: w = c := by simpa using hc
        exact ⟨w, heq.symm⟩
      · rw [if_neg hstop] at hc
        obtain ⟨t', ht'⟩ := ih _ c hc
        exact ⟨w ++ ' ' :: t', by rw [ht']; simp⟩

theorem runCount_cons (b : Bool) (c : Char) (cs : List Char) :
    runCount b (c :: cs) =
      if pyIsSpaceChar c then runCount false cs
      else (if b then 0 else 1) + runCount true cs := rfl

theorem runCount_true_le_false (s : List Char) :
    runCount true s ≤ runCount false s := by
  cases s with
  | nil => exact Nat.le_refl _
  | cons c cs =>
    rw [runCount_cons, runCount_cons]
    by_cases h : pyIsSpaceChar c = true
    · rw [if_pos h, if_pos h]
    · rw [if_neg h, if_neg h]
      show 0 + runCount true cs ≤ 1 + runCount true cs
      omega

theorem runCount_false_le_true_add_one (s : List Char) :
    runCount false s ≤ runCount true s + 1 := by
  cases s with
  | nil => exact Nat.zero_le _
  | cons c cs =>
    rw [runCount_cons, runCount_cons]
    by_cases h : pyIsSpaceChar c = true
    · rw [if_pos h, if_pos h]
      omega
    · rw [if_neg h, if_neg h]
      show 1 + runCount true cs ≤ 0 + runCount true cs + 1
      omega

theorem runCount_tail_le (b : Bool) (c : Char) (cs : List Char) :
    runCount b cs ≤ runCount b (c :: cs) := by
  rw [runCount_cons]
  by_cases h : pyIsSpaceChar c = true
  · rw [if_pos h]
    cases b
    · exact Nat.le_refl _
    · exact runCount_true_le_false cs
  · rw [if_neg h]
    cases b
    · show runCount false cs ≤ 1 + runCount true cs
      have := runCount_false_le_true_add_one cs
      omega
    · show runCount true cs ≤ 0 + runCount true cs
      omega

theorem runCount_drop_le (b : Bool) (k : Nat) :
    ∀ s : List Char, runCount b (s.drop k) ≤ runCount b s := by
  induction k with
  | zero => intro s; exact Nat.le_refl _
  | succ k ih =>
    intro s
    cases s with
    | nil => exact Nat.le_refl _
    | cons c cs =>
      calc runCount b ((c :: cs).drop (k + 1)) = runCount b (cs.drop k) := rfl
        _ ≤ runCount b cs := ih cs
        _ ≤ runCount b (c :: cs) := runCount_tail_le b c cs

theorem runCount_replaceAllF_le (pat : PyStr) :
    ∀ (fuel : Nat) (s : PyStr) (b : Bool),
      runCount b (replaceAllF pat fuel s) ≤ runCount b s := by
  intro fuel
  induction fuel with
  | zero => intro s b; exact Nat.le_refl _
  | succ f ih =>
    intro s b
    cases s with
    | nil => exact Nat.le_refl _
    | cons c cs =>
      rw [replaceAllF_cons]
      split
      · calc runCount b (replaceAllF pat f ((c :: cs).drop pat.length))
            ≤ runCount b ((c :: cs).drop pat.length) := ih _ _
          _ ≤ runCount b (c :: cs) := runCount_drop_le b pat.length (c :: cs)
      · rw [runCount_cons, runCount_cons]
        by_cases hsp : pyIsSpaceChar c = true
        · rw [if_pos hsp, if_pos hsp]
          exact ih cs false
        · rw [if_neg hsp, if_neg hsp]
          exact Nat.add_le_add_left (ih cs true) _

theorem runCount_pyReplace_le (s pat : PyStr) (b : Bool) :
    runCount b (pyReplace s pat) ≤ runCount b s :=
  runCount_replaceAllF_le pat s.length s b

theorem isPrefixOf_self_append (pat t : PyStr) :
    pat.isPrefixOf (pat ++ t) = true := by
  induction pat with
  | nil => cases t <;> rfl
  | cons a as ih => simp [List.isPrefixOf, ih]

theorem runCount_pyReplace_strip (pat t : PyStr) (hpat : pat ≠ [])
    (b : Bool) : runCount b (pyReplace (pat ++ t) pat) ≤ runCount b t := by
  obtain ⟨c, cs, rfl⟩ : ∃ c cs, pat = c :: cs := by
    cases pat with
    | nil => exact absurd rfl hpat
    | cons c cs => exact ⟨c, cs, rfl⟩
  unfold pyReplace
  have hlen : ((c :: cs) ++ t).length = (cs.length + t.length) + 1 := by
    simp
  have hpre : (c :: cs).isPrefixOf (c :: (cs ++ t)) = true := by
    rw [← List.cons_append]
    exact isPrefixOf_self_append (c :: cs) t
  have hdrop : (c :: (cs ++ t)).drop (c :: cs).length = t := by
    rw [← List.cons_append]
    exact List.drop_left (c :: cs) t
  rw [hlen, List.cons_append, replaceAllF_cons, if_pos ⟨hpre, hpat⟩, hdrop]
  exact runCount_replaceAllF_le (c :: cs) _ t b

theorem splitPAux_length (s : List Char) :
    ∀ acc : List Char, (splitPAux pyIsSpaceChar s acc).length =
      if acc = [] then runCount false s else runCount true s + 1 := by
  induction s with
  | nil =>
    intro acc
    by_cases h : acc = [] <;> simp [splitPAux, h, runCount]
  | cons c cs ih =>
    intro acc
    by_cases hsp : pyIsSpaceChar c = true
    · by_cases h : acc = [] <;>
        simp [splitPAux, hsp, h, runCount_cons, ih]
    · by_cases h : acc = [] <;>
        (simp [splitPAux, hsp, h, runCount_cons, ih] <;> omega)

theorem pySplit_length_runCount (s : PyStr) :
    (pySplit s).length = runCount false s := by
  have := splitPAux_length s []
  simpa [pySplit, splitP] using this

/-- C3 (amended): for every decode run of `sample_caption` that returns a
caption (over a well-formed vocabulary, with `max_length ≥ 2`), the
returned string contains at most `max_length - 1` tokens after the
sentinel stripping.  The claimed bound `max_length - 2` holds only when
the loop stops via the end sentinel; when it stops via the length bound
no trailing `' endseq'` is removed and `max_length - 1` tokens remain
(see the counterexample). -/
theorem sample_caption_token_bound {α : Type} (predict : α → List Nat → Nat)
    (tok : Tokenizer) (max_length : Nat) (feature : α) (r : PyStr)
    (hwf : wfTokens tok) (hml : 2 ≤ max_length)
    (hok : sample_caption predict tok max_length feature = .ok r) :
    (pySplit r).length ≤ max_length - 1 := by
  unfold sample_caption at hok
  cases hloop : sampleLoop predict tok max_length feature max_length
      startseqW with
  | error err =>
    rw [hloop] at hok
    exact absurd hok (by simp [Except.map])
  | ok c =>
    rw [hloop] at hok
    have hr : r = stripWrap c := by
      simpa [Except.map] using hok.symm
    obtain ⟨t, ht⟩ := sampleLoop_extends predict tok max_length feature
      max_length startseqW c hloop
    have hstart1 : (pySplit startseqW).length = 1 := by decide
    have hcle : (pySplit c).length ≤ max_length :=
      sampleLoop_count_le predict tok max_length feature hwf max_length
        startseqW c hloop (by omega)
    have hsplitc : (pySplit c).length = 1 + (pySplit t).length := by
      rw [ht, show pySplit (startseqW ++ ' ' :: t)
            = pySplit startseqW ++ pySplit t from
          splitPAux_append pyIsSpaceChar (by decide) t startseqW []]
      simp [hstart1]
    have hkey : (pySplit t).length ≤ max_length - 1 := by omega
    have hc2 : c = startPat ++ t := by
      rw [ht]
      rw [show startPat = startseqW ++ [' '] from rfl]
      simp
    have hs1 : runCount false (pyReplace c startPat) ≤ runCount false t := by
      rw [hc2]
      exact runCount_pyReplace_strip startPat t (by decide) false
    have hs2 : runCount false (stripWrap c)
        ≤ runCount false (pyReplace c startPat) :=
      runCount_pyReplace_le (pyReplace c startPat) endPat false
    have ht2 : runCount false t = (pySplit t).length :=
      (pySplit_length_runCount t).symm
    rw [hr, pySplit_length_runCount]
    omega

/-- Witness for the amended C3: the always-`dog` model at
`max_length = 3` returns a caption of 2 = `max_length - 1` tokens. -/
theorem sample_caption_token_bound_witness :
    (pySplit ("dog dog".toList)).length ≤ 3 - 1 :=
  sample_caption_token_bound (fun (_ : Nat) _ => 3) tokDog 3 0
    ("dog dog".toList) (by unfold wfTokens; decide) (by decide) rfl

/-- C3 is false as stated: with a model that always selects `dog` and
`max_length = 3`, the loop stops via the length bound, only
`'startseq '` is stripped, and the returned caption `"dog dog"` has
2 tokens, exceeding `max_length - 2 = 1`. -/
theorem sample_caption_strip_bound_counterexample :
    sample_caption (fun (_ : Nat) _ => 3) tokDog 3 0
        = Except.ok ("dog dog".toList) ∧
    3 - 2 < (pySplit ("dog dog".toList)).length :=
  ⟨rfl, by decide⟩

/-- C4 (code bug): with a model that always assigns maximum probability
to the end sentinel, the first iteration selects `endseq` and
`sample_caption` returns the string `"endseq"`, not the empty string:
line 348 strips `'startseq '` first, consuming the space that the
`' endseq'` pattern of line 349 would need to match, contradicting the
docstring "Remove the startseq and endseq token". -/
theorem sample_caption_endseq_first_returns_endseq :
    sample_caption (fun (_ : Nat) _ => 2) tokSent 5 0
        = Except.ok ("endseq".toList) ∧
    ("endseq".toList : PyStr) ≠ [] :=
  ⟨rfl, by decide⟩

end ImgCap
